import Mathlib

/-!
Verification of the Presidente game engine (src/server.js, class GameState).

The JavaScript engine is shallowly embedded: each method of GameState becomes
a Lean function on an explicit state record.  JS object references to players
are modelled by the player seat index; the JS Set playersWhoSkipped becomes a
Finset Nat; Math.random draws are made explicit parameters (the list of swap
indices for the shuffle, the starting seat for the constructor).  The spec
field names map to the source as follows: tableCards is currentHighestCards,
currentSeat is currentPlayerIndex, skippedSeats is playersWhoSkipped,
finishedCount is finishedPlayers, phase is gamePhase.
-/

set_option maxHeartbeats 1000000

namespace Presidente

/-- A playing card as built by GameState.createDeck: a suit string and a
numeric value in 3..15 (11 is J, 12 is Q, 13 is K, 14 is A, 15 is 2). -/
structure Card where
  suit : String
  value : Nat
deriving DecidableEq, Repr

/-- The values taken by the gamePhase field in server.js. -/
inductive GamePhase where
  | waiting
  | playing
  | roundEnd
  | gameOver
deriving DecidableEq, Repr

/-- A player record as built in the GameState constructor. -/
structure Player where
  id : Nat
  name : String
  index : Nat
  hand : List Card
  isWinner : Bool
  finishPosition : Option Nat
deriving DecidableEq, Repr

/-- The server-side GameState.  Fields that hold player object references in
JS (roundWinner holds an id, gameWinner and friends hold references) are
modelled by the player id respectively the seat index. -/
structure GameState where
  players : List Player
  deck : List Card
  currentPlayerIndex : Nat
  currentRound : Nat
  centerCards : List Card
  lastPlayedCards : List Card
  currentHighestCard : Option Card
  currentHighestCards : List Card
  roundWinner : Option Nat
  roundLeader : Option Nat
  playersWhoSkipped : Finset Nat
  consecutiveSkips : Nat
  finishedPlayers : Nat
  gamePhase : GamePhase
  gameWinner : Option Nat
  gameSecond : Option Nat
  gameThird : Option Nat
  gameLoser : Option Nat
deriving DecidableEq

/-- JS Array.prototype.findIndex, returning an option instead of -1. -/
def myFindIdx (p : α → Bool) : List α → Option Nat
  | [] => none
  | a :: t => if p a then some 0 else (myFindIdx p t).map (· + 1)

/-- Pairs each list element with its position, starting at k. -/
def enumFrom (k : Nat) : List α → List (Nat × α)
  | [] => []
  | a :: t => (k, a) :: enumFrom (k + 1) t

/-- One swap of the shuffle loop: the JS destructuring swap of deck[i] and
deck[j] (identity when an index is out of range, which the loop never does). -/
def listSwap (l : List α) (i j : Nat) : List α :=
  match l.get? i, l.get? j with
  | some a, some b => (l.set i b).set j a
  | _, _ => l

/-- The body of GameState.shuffle: for i from l.length - 1 down to 1, swap
position i with position cs[k] (the k-th random draw, k = l.length - 1 - i).
The list cs supplies the draws, one per loop iteration. -/
def fyAux : List α → List Nat → Nat → List α
  | l, [], _ => l
  | l, j :: rest, i => fyAux (listSwap l i j) rest (i - 1)

/-- GameState.shuffle with the Math.random draws made explicit. -/
def shuffle (deck : List Card) (cs : List Nat) : List Card :=
  fyAux deck cs (deck.length - 1)

/-- The suit strings of GameState.createDeck, in source order. -/
def suitNames : List String := ["hearts", "diamonds", "clubs", "spades"]

/-- The card values of GameState.createDeck, in source order. -/
def cardValues : List Nat := [3, 4, 5, 6, 7, 8, 9, 10, 11, 12, 13, 14, 15]

/-- The deck built by the two nested forEach loops of createDeck, before the
shuffle call. -/
def createDeckUnshuffled : List Card :=
  suitNames.flatMap fun s => cardValues.map fun v => { suit := s, value := v }

/-- GameState.createDeck: build the 52-card deck and shuffle it. -/
def createDeck (cs : List Nat) : List Card :=
  shuffle createDeckUnshuffled cs

/-- GameState.dealCards: each player in order receives deck.splice(0, 13);
returns the players with hands assigned and the remaining deck. -/
def dealCards : List Player → List Card → List Player × List Card
  | [], deck => ([], deck)
  | p :: rest, deck =>
    let r := dealCards rest (deck.drop 13)
    ({ p with hand := deck.take 13 } :: r.1, r.2)

/-- The GameState constructor: players are built from (id, name) pairs in
order, the deck is created and dealt, and the starting seat (a Math.random
draw in JS) is the explicit argument start. -/
def newGame (ps : List (Nat × String)) (cs : List Nat) (start : Nat) : GameState :=
  let players0 := (enumFrom 0 ps).map fun pr =>
    ({ id := pr.2.1, name := pr.2.2, index := pr.1, hand := [],
       isWinner := false, finishPosition := none } : Player)
  let dealt := dealCards players0 (createDeck cs)
  { players := dealt.1
    deck := dealt.2
    currentPlayerIndex := start
    currentRound := 0
    centerCards := []
    lastPlayedCards := []
    currentHighestCard := none
    currentHighestCards := []
    roundWinner := none
    roundLeader := none
    playersWhoSkipped := ∅
    consecutiveSkips := 0
    finishedPlayers := 0
    gamePhase := GamePhase.playing
    gameWinner := none
    gameSecond := none
    gameThird := none
    gameLoser := none }

/-- GameState.canPlayCards, line for line: reject when the acting player is
not the player at currentPlayerIndex (compared by id), when cards is empty,
or when the cards do not all share one value; accept any same-value set on an
empty table; otherwise require equal count and strictly higher value. -/
def canPlayCards (s : GameState) (player : Player) (cards : List Card) : Bool :=
  match s.players.get? s.currentPlayerIndex with
  | none => false
  | some cur =>
    if cur.id != player.id then false
    else
      match cards with
      | [] => false
      | c0 :: _ =>
        if !(cards.all fun c => c.value == c0.value) then false
        else
          match s.currentHighestCards with
          | [] => true
          | h0 :: hs =>
            if cards.length != (h0 :: hs).length then false
            else decide (h0.value < c0.value)

/-- The hand.findIndex plus splice(index, 1) pair used in the removal loop of
playCards: finds the first hand card matching c by suit and value and removes
it, returning the removed card and the remaining hand. -/
def extractCard : List Card → Card → Option (Card × List Card)
  | [], _ => none
  | x :: t, c =>
    if x.suit == c.suit && x.value == c.value then some (x, t)
    else
      match extractCard t c with
      | some r => some (r.1, x :: r.2)
      | none => none

/-- The removal loop of playCards.  On each requested card, remove its first
match from the hand and append it to playedCards; if a card has no match, the
already removed cards are pushed back at the end of the hand (the JS
rollback) and the play fails.  Returns (success, new hand, playedCards). -/
def removeCards : List Card → List Card → List Card → Bool × List Card × List Card
  | hand, [], played => (true, hand, played)
  | hand, c :: rest, played =>
    match extractCard hand c with
    | some r => removeCards r.2 rest (played ++ [r.1])
    | none => (false, hand ++ played, played)

/-- Replaces the hand of the player at seat i (the JS mutation of the player
object referenced from this.players). -/
def setHand (s : GameState) (i : Nat) (hand : List Card) : GameState :=
  match s.players.get? i with
  | some p => { s with players := s.players.set i { p with hand := hand } }
  | none => s

/-- The switch statement of handlePlayerFinished: record the podium entry for
the player at seat i who finished with counter value fc; the fourth finisher
also ends the game. -/
def podiumUpdate (s1 : GameState) (i fc : Nat) : GameState :=
  match fc with
  | 1 => { s1 with gameWinner := some i }
  | 2 => { s1 with gameSecond := some i }
  | 3 => { s1 with gameThird := some i }
  | 4 => { s1 with gameLoser := some i, gamePhase := GamePhase.gameOver }
  | _ => s1

/-- The tail of handlePlayerFinished: when at most one active player remains
(and at least one), the first active player automatically receives the last
finish position and the game ends. -/
def autoFinishLast (s2 : GameState) : GameState :=
  let actives := s2.players.filter fun q => q.finishPosition.isNone
  if actives.length ≤ 1 && !actives.isEmpty then
    match myFindIdx (fun q => q.finishPosition.isNone) s2.players with
    | some j =>
      match s2.players.get? j with
      | some q =>
        let s3 := { s2 with
          players := s2.players.set j { q with finishPosition := some s2.players.length } }
        { s3 with
          gameLoser := (match s3.gameLoser with | some g => some g | none => some j)
          gamePhase := GamePhase.gameOver }
      | none => s2
    | none => s2
  else s2

/-- GameState.handlePlayerFinished for the player at seat i: increment
finishedPlayers, record the finish position, update the podium fields, and
when exactly one active player remains give that player the last position and
end the game. -/
def handlePlayerFinished (s : GameState) (i : Nat) : GameState :=
  match s.players.get? i with
  | none => s
  | some p =>
    let fc := s.finishedPlayers + 1
    let p' : Player :=
      if fc = 1 then { p with finishPosition := some fc, isWinner := true }
      else { p with finishPosition := some fc }
    let s1 := { s with finishedPlayers := fc, players := s.players.set i p' }
    autoFinishLast (podiumUpdate s1 i fc)

/-- The do-while loop of GameState.nextTurn, entered after the first
advancement with remaining = players.length - 1 further attempts allowed:
keep advancing past finished players until an active one is reached or the
attempt budget is spent. -/
def advanceLoop (players : List Player) (idx : Nat) : Nat → Nat
  | 0 => idx
  | r + 1 =>
    match players.get? idx with
    | some p =>
      if p.finishPosition.isSome then
        advanceLoop players ((idx + 1) % players.length) r
      else idx
    | none => idx

/-- GameState.endRound: the round leader wins the round, the table and skip
tracking are cleared and the leader takes the turn; with no leader (or an
out-of-range leader index) the turn simply advances by one. -/
def endRound (s : GameState) : GameState :=
  match s.roundLeader with
  | none => { s with currentPlayerIndex := (s.currentPlayerIndex + 1) % s.players.length }
  | some leader =>
    match s.players.get? leader with
    | none => { s with currentPlayerIndex := (s.currentPlayerIndex + 1) % s.players.length }
    | some w =>
      { s with
        roundWinner := some w.id
        centerCards := []
        lastPlayedCards := []
        currentHighestCard := none
        currentHighestCards := []
        playersWhoSkipped := ∅
        consecutiveSkips := 0
        currentRound := 0
        currentPlayerIndex := leader }

/-- GameState.nextTurn: advance currentPlayerIndex past finished players,
increment currentRound, and close the round when currentRound has reached the
number of active players. -/
def nextTurn (s : GameState) : GameState :=
  let idx := advanceLoop s.players ((s.currentPlayerIndex + 1) % s.players.length)
      (s.players.length - 1)
  let s1 := { s with currentPlayerIndex := idx, currentRound := s.currentRound + 1 }
  let active : Nat := (s1.players.filter fun q => q.finishPosition.isNone).length
  if active ≤ s1.currentRound then endRound s1 else s1

/-- The round-closure checks of GameState.skipTurn that run after nextTurn:
close the round when there is no leader, when the turn is back at the leader,
or when every other active player (found by id, as the JS findIndex does) is
in the skipped set. -/
def skipResolve (s2 : GameState) : GameState :=
  if s2.roundLeader = none then endRound s2
  else if some s2.currentPlayerIndex = s2.roundLeader then endRound s2
  else
    let actives := (enumFrom 0 s2.players).filter fun pr =>
      pr.2.finishPosition.isNone && !(s2.roundLeader == some pr.1)
    let allOthersSkipped := actives.all fun pr =>
      match myFindIdx (fun pl => pl.id == pr.2.id) s2.players with
      | some k => decide (k ∈ s2.playersWhoSkipped)
      | none => false
    if allOthersSkipped then endRound s2 else s2

/-- GameState.skipTurn: record the skip, advance the turn, then run the
round-closure checks. -/
def skipTurn (s : GameState) : GameState :=
  skipResolve
    (nextTurn { s with playersWhoSkipped := insert s.currentPlayerIndex s.playersWhoSkipped })

/-- The state written by a successful playCards just before nextTurn: the new
hand is installed, the table fields and round bookkeeping are set, and the
finish handler runs when the hand became empty. -/
def postPlayState (s : GameState) (i : Nat) (player : Player)
    (newHand played : List Card) : GameState :=
  let s1 := setHand s i newHand
  let s2 := { s1 with
    currentHighestCards := played
    currentHighestCard := played.head?
    centerCards := played
    lastPlayedCards := played
    roundLeader := some i
    roundWinner := some player.id
    playersWhoSkipped := ∅
    consecutiveSkips := 0 }
  if newHand.isEmpty then handlePlayerFinished s2 i else s2

/-- GameState.playCards: validate with canPlayCards, check every requested
card is present in the hand, run the removal loop (whose rollback can leave
the hand reordered), apply the updates and advance the turn.  Returns the JS
boolean together with the resulting state. -/
def playCards (s : GameState) (i : Nat) (cards : List Card) : Bool × GameState :=
  match s.players.get? i with
  | none => (false, s)
  | some player =>
    if !(canPlayCards s player cards) then (false, s)
    else if !(cards.all fun c =>
        player.hand.any fun x => x.suit == c.suit && x.value == c.value) then
      (false, s)
    else
      match removeCards player.hand cards [] with
      | (false, newHand, _) => (false, setHand s i newHand)
      | (true, newHand, played) => (true, nextTurn (postPlayState s i player newHand played))

/-- The seat check of the skipTurn socket handler: the request is dropped
(state unchanged) unless the requesting seat holds the turn. -/
def skipTurnRequest (s : GameState) (seat : Nat) : GameState :=
  if seat = s.currentPlayerIndex then skipTurn s else s

/-- The finish position recorded for the player at seat i, when the seat
exists. -/
def posAt (s : GameState) (i : Nat) : Option Nat :=
  match s.players.get? i with
  | some p => p.finishPosition
  | none => none

/-- Validity of a draw list for the shuffle loop run at index i: exactly one
draw per iteration, each within the JS bound Math.floor(random * (i + 1)). -/
def validFy : Nat → List Nat → Prop
  | 0, cs => cs = []
  | i + 1, cs =>
    match cs with
    | [] => False
    | j :: rest => j ≤ i + 1 ∧ validFy i rest

/-- The concatenation of all player hands, in seat order. -/
def allHands : List Player → List Card
  | [] => []
  | p :: t => p.hand ++ allHands t

/-! ## Concrete states used as witnesses and counterexamples -/

/-- Shorthand card constructor for concrete states. -/
def exCard (su : String) (v : Nat) : Card := { suit := su, value := v }

/-- Shorthand player constructor for concrete states. -/
def exPlayer (i : Nat) (h : List Card) (fp : Option Nat) : Player :=
  { id := i, name := "p", index := i, hand := h, isWinner := false, finishPosition := fp }

/-- A four-player mid-game state with a clear table, seat 0 to act. -/
def exBase : GameState :=
  { players := [exPlayer 0 [exCard "hearts" 3, exCard "spades" 5] none,
      exPlayer 1 [exCard "hearts" 7, exCard "clubs" 4] none,
      exPlayer 2 [exCard "diamonds" 9, exCard "clubs" 6] none,
      exPlayer 3 [exCard "spades" 9, exCard "clubs" 8] none]
    deck := []
    currentPlayerIndex := 0
    currentRound := 0
    centerCards := []
    lastPlayedCards := []
    currentHighestCard := none
    currentHighestCards := []
    roundWinner := none
    roundLeader := none
    playersWhoSkipped := ∅
    consecutiveSkips := 0
    finishedPlayers := 0
    gamePhase := GamePhase.playing
    gameWinner := none
    gameSecond := none
    gameThird := none
    gameLoser := none }

/-- Seats 1 and 2 have skipped on the table of leader 0; seat 3 is about to
skip. -/
def exC2 : GameState :=
  { exBase with
    currentPlayerIndex := 3
    roundLeader := some 0
    currentHighestCards := [exCard "hearts" 10]
    currentHighestCard := some (exCard "hearts" 10)
    playersWhoSkipped := insert 1 (insert 2 (∅ : Finset Nat)) }

/-- Three successful plays have happened this round (currentRound = 3); seat
3 is about to beat the pair on the table with the fourth play. -/
def exC3 : GameState :=
  { exBase with
    currentPlayerIndex := 3
    currentRound := 3
    roundLeader := some 2
    currentHighestCards := [exCard "diamonds" 7]
    currentHighestCard := some (exCard "diamonds" 7) }

/-- Seat 0 holds a single card and will finish by playing it while everyone
else is still active. -/
def exC6 : GameState :=
  { exBase with
    players := [exPlayer 0 [exCard "hearts" 3] none,
      exPlayer 1 [exCard "hearts" 7, exCard "clubs" 4] none,
      exPlayer 2 [exCard "diamonds" 9, exCard "clubs" 6] none,
      exPlayer 3 [exCard "spades" 9, exCard "clubs" 8] none] }

/-- Seat 0 finished first while leading the round; seats 1 and 2 have
skipped and seat 3 is about to skip, which hands the turn back to the
finished leader. -/
def exC9 : GameState :=
  { exBase with
    players := [exPlayer 0 [] (some 1),
      exPlayer 1 [exCard "hearts" 7, exCard "clubs" 4] none,
      exPlayer 2 [exCard "diamonds" 9, exCard "clubs" 6] none,
      exPlayer 3 [exCard "spades" 9, exCard "clubs" 8] none]
    currentPlayerIndex := 3
    roundLeader := some 0
    currentHighestCards := [exCard "hearts" 14]
    currentHighestCard := some (exCard "hearts" 14)
    playersWhoSkipped := insert 1 (insert 2 (∅ : Finset Nat))
    finishedPlayers := 1
    gameWinner := some 0 }

/-- A state one finisher away from game over: seats 0 and 1 are already
finished and seat 2 is about to play out the last card of its hand. -/
def exC5 : GameState :=
  { exBase with
    players := [exPlayer 0 [] (some 1),
      exPlayer 1 [] (some 2),
      exPlayer 2 [exCard "diamonds" 9] none,
      exPlayer 3 [exCard "spades" 9, exCard "clubs" 8] none]
    currentPlayerIndex := 2
    finishedPlayers := 2
    gameWinner := some 0
    gameSecond := some 1 }

/-! ## List toolbox -/

theorem get?_some_of_lt (l : List α) (n : Nat) (h : n < l.length) :
    ∃ a, l.get? n = some a :=
  ⟨l.get ⟨n, h⟩, List.get?_eq_get h⟩

theorem enumFrom_get? (l : List α) :
    ∀ n k (a : α), (k, a) ∈ enumFrom n l → n ≤ k ∧ l.get? (k - n) = some a := by
  induction l with
  | nil => intro n k a h; simp [enumFrom] at h
  | cons x t ih =>
    intro n k a h
    simp only [enumFrom, List.mem_cons] at h
    rcases h with h | h
    · obtain ⟨hk, ha⟩ : k = n ∧ a = x := by simpa [Prod.ext_iff] using h
      subst hk
      exact ⟨Nat.le_refl k, by simp [Nat.sub_self, ha]⟩
    · obtain ⟨hle, hget⟩ := ih (n + 1) k a h
      refine ⟨Nat.le_of_succ_le hle, ?_⟩
      have hk : k - n = (k - (n + 1)) + 1 := by omega
      rw [hk]
      simpa using hget

theorem myFindIdx_some (p : α → Bool) :
    ∀ (l : List α) k, myFindIdx p l = some k → ∃ a, l.get? k = some a ∧ p a = true := by
  intro l
  induction l with
  | nil => intro k h; simp [myFindIdx] at h
  | cons x t ih =>
    intro k h
    by_cases hx : p x = true
    · simp [myFindIdx, hx] at h
      subst h
      exact ⟨x, rfl, hx⟩
    · simp [myFindIdx, hx] at h
      obtain ⟨j, hj, hk⟩ := h
      obtain ⟨a, ha, hpa⟩ := ih j hj
      exact ⟨a, by simpa [← hk] using ha, hpa⟩

theorem myFindIdx_map_nodup [BEq β] [LawfulBEq β] (f : α → β) :
    ∀ (l : List α) k (x : α), (l.map f).Nodup → l.get? k = some x →
      myFindIdx (fun y => f y == f x) l = some k := by
  intro l
  induction l with
  | nil => intro k x _ h; simp at h
  | cons a t ih =>
    intro k x hnd hget
    have hnd' : f a ∉ t.map f ∧ (t.map f).Nodup := by
      simpa [List.nodup_cons] using hnd
    cases k with
    | zero =>
      have hx : a = x := by simpa using hget
      subst hx
      simp [myFindIdx]
    | succ j =>
      have hget' : t.get? j = some x := by simpa using hget
      have hxt : x ∈ t := List.get?_mem hget'
      have hne : (f a == f x) = false := by
        rcases h : f a == f x with _ | _
        · rfl
        · exact absurd (List.mem_map_of_mem f hxt) (by rw [← eq_of_beq h]; exact hnd'.1)
      simp [myFindIdx, hne, ih j x hnd'.2 hget']

theorem myFindIdx_unique (q : α → Bool) :
    ∀ (l : List α) j (a : α), (l.filter q).length = 1 → l.get? j = some a →
      q a = true → myFindIdx q l = some j := by
  intro l
  induction l with
  | nil => intro j a _ h; simp at h
  | cons x t ih =>
    intro j a hlen hget hq
    by_cases hx : q x = true
    · have htf' : t.filter q = [] := by
        rw [List.filter_cons, if_pos hx] at hlen
        have : (t.filter q).length = 0 := by simpa using hlen
        exact List.length_eq_zero.mp this
      cases j with
      | zero => simp [myFindIdx, hx]
      | succ m =>
        exfalso
        have hmem : a ∈ t := List.get?_mem (by simpa using hget)
        have : a ∈ t.filter q := List.mem_filter.mpr ⟨hmem, hq⟩
        simp [htf'] at this
    · have hxf : q x = false := by simpa using hx
      cases j with
      | zero =>
        exfalso
        have : x = a := by simpa using hget
        rw [this] at hxf
        simp [hq] at hxf
      | succ m =>
        have hlen' : (t.filter q).length = 1 := by
          simpa [List.filter_cons, hxf] using hlen
        have hget' : t.get? m = some a := by simpa using hget
        simp [myFindIdx, hxf, ih m a hlen' hget' hq]

theorem filter_set_count (q : α → Bool) :
    ∀ (l : List α) i (p p' : α), l.get? i = some p →
      ((l.set i p').filter q).length + (if q p then 1 else 0) =
        (l.filter q).length + (if q p' then 1 else 0) := by
  intro l
  induction l with
  | nil => intro i p p' h; simp at h
  | cons x t ih =>
    intro i p p' hget
    cases i with
    | zero =>
      have hx : x = p := by simpa using hget
      subst hx
      simp only [List.set, List.filter_cons]
      rcases hp : q x with _ | _ <;> rcases hp' : q p' with _ | _ <;> simp [hp, hp']
    | succ m =>
      have hget' : t.get? m = some p := by simpa using hget
      have := ih m p p' hget'
      simp only [List.set, List.filter_cons]
      rcases hp : q x with _ | _ <;> simp [hp] <;> omega

/-! ## Card matching, extraction and removal -/

theorem card_match_iff (x c : Card) :
    ((x.suit == c.suit && x.value == c.value) = true) ↔ x = c := by
  cases x with
  | mk xs xv =>
    cases c with
    | mk cs cv =>
      constructor
      · intro h
        simp only [Bool.and_eq_true, beq_iff_eq] at h
        simp [h.1, h.2]
      · intro h
        cases h
        simp

theorem extractCard_some (c : Card) :
    ∀ (h : List Card) r, extractCard h c = some r → r.1 = c ∧ h.Perm (c :: r.2) := by
  intro h
  induction h with
  | nil => intro r hr; simp [extractCard] at hr
  | cons x t ih =>
    intro r hr
    by_cases hm : (x.suit == c.suit && x.value == c.value) = true
    · have hx : x = c := (card_match_iff x c).mp hm
      subst hx
      simp [extractCard, hm] at hr
      subst hr
      exact ⟨rfl, List.Perm.refl _⟩
    · have hmf : (x.suit == c.suit && x.value == c.value) = false := by simpa using hm
      rcases hrec : extractCard t c with _ | r'
      · simp [extractCard, hmf, hrec] at hr
      · have hr' : r = (r'.1, x :: r'.2) := by
          simp [extractCard, hmf, hrec] at hr
          simp [← hr]
        obtain ⟨h1, h2⟩ := ih r' hrec
        subst hr'
        refine ⟨h1, ?_⟩
        show (x :: t).Perm (c :: x :: r'.2)
        exact (List.Perm.cons x h2).trans (List.Perm.swap c x r'.2)

theorem extractCard_of_mem (c : Card) :
    ∀ (h : List Card), c ∈ h → extractCard h c = some (c, h.erase c) := by
  intro h
  induction h with
  | nil => intro hm; simp at hm
  | cons x t ih =>
    intro hm
    by_cases hx : x = c
    · subst hx
      simp [extractCard, List.erase_cons]
    · have hmatch : (x.suit == c.suit && x.value == c.value) = false := by
        rcases hb : (x.suit == c.suit && x.value == c.value) with _ | _
        · rfl
        · exact absurd ((card_match_iff x c).mp hb) hx
      have hct : c ∈ t := by
        rcases List.mem_cons.mp hm with h1 | h1
        · exact absurd h1.symm hx
        · exact h1
      have hxc : (x == c) = false := by
        rcases hb : x == c with _ | _
        · rfl
        · exact absurd (eq_of_beq hb) hx
      simp [extractCard, hmatch, ih hct, List.erase_cons, hxc]

theorem removeCards_success :
    ∀ (cards hand played : List Card), cards.Nodup → (∀ c ∈ cards, c ∈ hand) →
      removeCards hand cards played =
        (true, cards.foldl (fun h c => h.erase c) hand, played ++ cards) := by
  intro cards
  induction cards with
  | nil => intro hand played _ _; simp [removeCards]
  | cons c rest ih =>
    intro hand played hnd hsub
    have hc : c ∈ hand := hsub c (List.mem_cons_self c rest)
    have hnd' : rest.Nodup := (List.nodup_cons.mp hnd).2
    have hcr : c ∉ rest := (List.nodup_cons.mp hnd).1
    have hsub' : ∀ x ∈ rest, x ∈ hand.erase c := by
      intro x hx
      have hxc : x ≠ c := fun he => hcr (he ▸ hx)
      exact (List.mem_erase_of_ne hxc).mpr (hsub x (List.mem_cons_of_mem c hx))
    simp only [removeCards, extractCard_of_mem c hand hc]
    rw [ih (hand.erase c) (played ++ [c]) hnd' hsub']
    simp [List.foldl_cons]

theorem removeCards_failure_perm :
    ∀ (cards hand played : List Card), (removeCards hand cards played).1 = false →
      ((removeCards hand cards played).2.1).Perm (hand ++ played) := by
  intro cards
  induction cards with
  | nil => intro hand played h; simp [removeCards] at h
  | cons c rest ih =>
    intro hand played hfail
    rcases hex : extractCard hand c with _ | r
    · simp [removeCards, hex]
    · simp only [removeCards, hex] at hfail ⊢
      have hperm := ih r.2 (played ++ [r.1]) hfail
      obtain ⟨hr1, hr2⟩ := extractCard_some c hand r hex
      have hhand : hand.Perm (r.1 :: r.2) := by rw [hr1]; exact hr2
      have step1 : (r.2 ++ (played ++ [r.1])).Perm (r.2 ++ ([r.1] ++ played)) :=
        List.Perm.append_left r.2 List.perm_append_comm
      have step2 : (r.2 ++ ([r.1] ++ played)).Perm ((r.1 :: r.2) ++ played) := by
        rw [← List.append_assoc]
        exact List.Perm.append_right played List.perm_append_comm
      have step3 : ((r.1 :: r.2) ++ played).Perm (hand ++ played) :=
        List.Perm.append_right played hhand.symm
      exact hperm.trans (step1.trans (step2.trans step3))

/-! ## Engine structural lemmas -/

theorem endRound_spec (s : GameState) (L : Nat) (hL : s.roundLeader = some L)
    (hlen : L < s.players.length) :
    (endRound s).currentPlayerIndex = L ∧ (endRound s).currentHighestCards = [] ∧
    (endRound s).centerCards = [] ∧ (endRound s).playersWhoSkipped = ∅ ∧
    (endRound s).roundLeader = some L ∧ (endRound s).players = s.players ∧
    (endRound s).currentRound = 0 := by
  obtain ⟨w, hw⟩ := get?_some_of_lt s.players L hlen
  have hw' : s.players[L]? = some w := by rw [← List.get?_eq_getElem?]; exact hw
  simp [endRound, hL, hw, hw']

theorem nextTurn_eq (s : GameState) :
    nextTurn s =
      (if ((s.players.filter fun q => q.finishPosition.isNone).length ≤ s.currentRound + 1)
       then endRound { s with
         currentPlayerIndex :=
           advanceLoop s.players ((s.currentPlayerIndex + 1) % s.players.length)
             (s.players.length - 1)
         currentRound := s.currentRound + 1 }
       else { s with
         currentPlayerIndex :=
           advanceLoop s.players ((s.currentPlayerIndex + 1) % s.players.length)
             (s.players.length - 1)
         currentRound := s.currentRound + 1 }) := rfl

theorem skipResolve_back (t : GameState) (L : Nat) (hL : t.roundLeader = some L)
    (hlen : L < t.players.length) (hcur : t.currentPlayerIndex = L) :
    (skipResolve t).currentPlayerIndex = L ∧ (skipResolve t).currentHighestCards = [] ∧
    (skipResolve t).centerCards = [] ∧ (skipResolve t).playersWhoSkipped = ∅ := by
  have hspec := endRound_spec t L hL hlen
  unfold skipResolve
  rw [if_neg (by simp [hL]), if_pos (by rw [hL, hcur])]
  exact ⟨hspec.1, hspec.2.1, hspec.2.2.1, hspec.2.2.2.1⟩

theorem skipResolve_allskipped (t : GameState) (L : Nat) (hL : t.roundLeader = some L)
    (hlen : L < t.players.length) (hids : (t.players.map Player.id).Nodup)
    (hsk : ∀ k, k < t.players.length → posAt t k = none → k ≠ L →
      k ∈ t.playersWhoSkipped) :
    (skipResolve t).currentPlayerIndex = L ∧ (skipResolve t).currentHighestCards = [] ∧
    (skipResolve t).centerCards = [] ∧ (skipResolve t).playersWhoSkipped = ∅ := by
  have hspec := endRound_spec t L hL hlen
  by_cases hcur : t.currentPlayerIndex = L
  · exact skipResolve_back t L hL hlen hcur
  · have hall : (((enumFrom 0 t.players).filter fun pr =>
        pr.2.finishPosition.isNone && !(t.roundLeader == some pr.1)).all fun pr =>
          match myFindIdx (fun pl => pl.id == pr.2.id) t.players with
          | some k => decide (k ∈ t.playersWhoSkipped)
          | none => false) = true := by
      rw [List.all_eq_true]
      intro pr hpr
      obtain ⟨hmem, hpred⟩ := List.mem_filter.mp hpr
      have h1 : pr.2.finishPosition.isNone = true ∧ (!(t.roundLeader == some pr.1)) = true := by
        simpa [Bool.and_eq_true] using hpred
      have hpos : pr.2.finishPosition = none := Option.isNone_iff_eq_none.mp h1.1
      have hneL : pr.1 ≠ L := by
        intro he
        have h2 := h1.2
        rw [hL, he] at h2
        simp at h2
      have hget : t.players.get? pr.1 = some pr.2 := by
        have hm : (pr.1, pr.2) ∈ enumFrom 0 t.players := by simpa using hmem
        have := enumFrom_get? t.players 0 pr.1 pr.2 hm
        simpa using this.2
      have hklen : pr.1 < t.players.length := by
        rcases List.get?_eq_some.mp hget with ⟨h, _⟩
        exact h
      have hgetE : t.players[pr.1]? = some pr.2 := by
        rw [← List.get?_eq_getElem?]; exact hget
      have hk := hsk pr.1 hklen (by simp [posAt, hget, hgetE, hpos]) hneL
      have hf := myFindIdx_map_nodup Player.id t.players pr.1 pr.2 hids hget
      rw [hf]
      exact decide_eq_true hk
    unfold skipResolve
    rw [if_neg (by simp [hL]), if_neg (by simp [hL, hcur])]
    simp only [hall, if_true]
    exact ⟨hspec.1, hspec.2.1, hspec.2.2.1, hspec.2.2.2.1⟩

theorem eraseAll_of_perm :
    ∀ (cards hand : List Card), hand.Perm cards →
      cards.foldl (fun h c => h.erase c) hand = [] := by
  intro cards
  induction cards with
  | nil => intro hand h; simpa using h.eq_nil
  | cons c rest ih =>
    intro hand h
    have h1 : (hand.erase c).Perm rest := by
      have := h.erase c
      simpa [List.erase_cons] using this
    simpa [List.foldl_cons] using ih (hand.erase c) h1

theorem skipResolve_after_endRound (u : GameState) (L : Nat) (hL : u.roundLeader = some L)
    (hlen : L < u.players.length) :
    (skipResolve (endRound u)).currentPlayerIndex = L ∧
    (skipResolve (endRound u)).currentHighestCards = [] ∧
    (skipResolve (endRound u)).centerCards = [] ∧
    (skipResolve (endRound u)).playersWhoSkipped = ∅ := by
  have hspec := endRound_spec u L hL hlen
  exact skipResolve_back (endRound u) L hspec.2.2.2.2.1
    (by rw [hspec.2.2.2.2.2.1]; exact hlen) hspec.1

theorem map_nodup_ne (f : α → β) (l : List α) (i j : Nat) (a b : α)
    (hnd : (l.map f).Nodup) (hi : l.get? i = some a) (hj : l.get? j = some b)
    (hij : i ≠ j) : f a ≠ f b := by
  intro hfab
  have hmi : (l.map f).get? i = some (f a) := by rw [List.get?_map, hi]; rfl
  have hmj : (l.map f).get? j = some (f b) := by rw [List.get?_map, hj]; rfl
  have hilen : i < (l.map f).length := by
    rcases List.get?_eq_some.mp hmi with ⟨h, _⟩
    exact h
  exact hij (List.get?_inj hilen hnd (by rw [hmi, hmj, hfab]))

theorem playCards_run (s : GameState) (i : Nat) (p : Player) (cards nh pl : List Card)
    (hp : s.players.get? i = some p)
    (hcan : canPlayCards s p cards = true)
    (hany : (cards.all fun c =>
      p.hand.any fun x => x.suit == c.suit && x.value == c.value) = true)
    (hrem : removeCards p.hand cards [] = (true, nh, pl)) :
    playCards s i cards = (true, nextTurn (postPlayState s i p nh pl)) := by
  unfold playCards
  rw [hp]
  dsimp only
  rw [hcan, hany, hrem]
  simp

theorem playCards_reject_canPlay (s : GameState) (i : Nat) (p : Player) (cards : List Card)
    (hp : s.players.get? i = some p)
    (hcan : canPlayCards s p cards = false) :
    playCards s i cards = (false, s) := by
  unfold playCards
  rw [hp]
  dsimp only
  rw [hcan]
  simp

theorem setHand_players_length (s : GameState) (i : Nat) (hand : List Card) :
    (setHand s i hand).players.length = s.players.length := by
  unfold setHand
  rcases hpl : s.players.get? i with _ | p
  · rfl
  · simp

theorem setHand_currentRound (s : GameState) (i : Nat) (hand : List Card) :
    (setHand s i hand).currentRound = s.currentRound := by
  unfold setHand
  rcases hpl : s.players.get? i with _ | p
  · rfl
  · rfl

theorem podiumUpdate_preserves (s1 : GameState) (i fc : Nat) :
    (podiumUpdate s1 i fc).players = s1.players ∧
    (podiumUpdate s1 i fc).finishedPlayers = s1.finishedPlayers ∧
    (podiumUpdate s1 i fc).roundLeader = s1.roundLeader ∧
    (podiumUpdate s1 i fc).playersWhoSkipped = s1.playersWhoSkipped ∧
    (podiumUpdate s1 i fc).currentHighestCards = s1.currentHighestCards ∧
    (podiumUpdate s1 i fc).centerCards = s1.centerCards ∧
    (podiumUpdate s1 i fc).currentPlayerIndex = s1.currentPlayerIndex ∧
    (podiumUpdate s1 i fc).currentRound = s1.currentRound := by
  unfold podiumUpdate
  rcases fc with _ | _ | _ | _ | _ | n <;>
    exact ⟨rfl, rfl, rfl, rfl, rfl, rfl, rfl, rfl⟩

theorem podiumUpdate_phase (s1 : GameState) (i fc : Nat) (h4 : fc ≠ 4) :
    (podiumUpdate s1 i fc).gamePhase = s1.gamePhase := by
  unfold podiumUpdate
  rcases fc with _ | _ | _ | _ | _ | n
  · rfl
  · rfl
  · rfl
  · rfl
  · exact absurd rfl h4
  · rfl

theorem autoFinishLast_preserves (s2 : GameState) :
    (autoFinishLast s2).roundLeader = s2.roundLeader ∧
    (autoFinishLast s2).playersWhoSkipped = s2.playersWhoSkipped ∧
    (autoFinishLast s2).currentHighestCards = s2.currentHighestCards ∧
    (autoFinishLast s2).centerCards = s2.centerCards ∧
    (autoFinishLast s2).currentPlayerIndex = s2.currentPlayerIndex ∧
    (autoFinishLast s2).currentRound = s2.currentRound ∧
    (autoFinishLast s2).finishedPlayers = s2.finishedPlayers ∧
    (autoFinishLast s2).players.length = s2.players.length := by
  unfold autoFinishLast
  dsimp only
  repeat' split
  all_goals simp

theorem autoFinishLast_skip (s2 : GameState)
    (h2 : 2 ≤ (s2.players.filter fun q => q.finishPosition.isNone).length) :
    autoFinishLast s2 = s2 := by
  unfold autoFinishLast
  dsimp only
  rw [if_neg (by
    intro hc
    rw [Bool.and_eq_true] at hc
    have := of_decide_eq_true hc.1
    omega)]

theorem autoFinishLast_empty (s2 : GameState)
    (h0 : (s2.players.filter fun q => q.finishPosition.isNone).length = 0) :
    autoFinishLast s2 = s2 := by
  have hnil : (s2.players.filter fun q => q.finishPosition.isNone) = [] :=
    List.length_eq_zero.mp h0
  unfold autoFinishLast
  dsimp only
  rw [if_neg (by
    intro hc
    rw [Bool.and_eq_true, hnil] at hc
    simp at hc)]

theorem posAt_congr (a b : GameState) (j : Nat) (h : a.players.get? j = b.players.get? j) :
    posAt a j = posAt b j := by
  unfold posAt
  rw [h]

theorem posAt_eq_of_get? (a : GameState) (j : Nat) (q : Player)
    (h : a.players.get? j = some q) : posAt a j = q.finishPosition := by
  unfold posAt
  rw [h]

theorem autoFinishLast_one (s2 : GameState)
    (hone : (s2.players.filter fun q => q.finishPosition.isNone).length = 1) :
    (autoFinishLast s2).gamePhase = GamePhase.gameOver ∧
    (∀ j q, s2.players.get? j = some q → q.finishPosition = none →
      posAt (autoFinishLast s2) j = some s2.players.length) ∧
    (∀ j q, s2.players.get? j = some q → q.finishPosition ≠ none →
      posAt (autoFinishLast s2) j = q.finishPosition) := by
  obtain ⟨a, hfa⟩ : ∃ a, s2.players.filter (fun q => q.finishPosition.isNone) = [a] := by
    rcases hf : s2.players.filter (fun q => q.finishPosition.isNone) with _ | ⟨b, rest⟩
    · rw [hf] at hone
      simp at hone
    · rw [hf] at hone
      simp at hone
      exact ⟨b, by rw [hf, hone]⟩
  have hamem : a ∈ s2.players ∧ a.finishPosition.isNone = true := by
    have ha : a ∈ s2.players.filter (fun q => q.finishPosition.isNone) := by
      rw [hfa]
      exact List.mem_cons_self a []
    exact ⟨(List.mem_filter.mp ha).1, (List.mem_filter.mp ha).2⟩
  obtain ⟨j0, hj0⟩ := List.get?_of_mem hamem.1
  have hfind : myFindIdx (fun q => q.finishPosition.isNone) s2.players = some j0 :=
    myFindIdx_unique _ s2.players j0 a hone hj0 hamem.2
  have hj0len : j0 < s2.players.length := by
    rcases List.get?_eq_some.mp hj0 with ⟨h, _⟩
    exact h
  unfold autoFinishLast
  dsimp only
  rw [if_pos (by rw [hfa]; simp), hfind]
  dsimp only
  rw [hj0]
  dsimp only
  refine ⟨rfl, ?_, ?_⟩
  · intro j q hj hq
    have hfj : myFindIdx (fun q => q.finishPosition.isNone) s2.players = some j :=
      myFindIdx_unique _ s2.players j q hone hj (by simp [hq])
    have hjj0 : j = j0 := Option.some_injective Nat (hfj.symm.trans hfind)
    subst hjj0
    have hg : (s2.players.set j
        { a with finishPosition := some s2.players.length }).get? j =
        some { a with finishPosition := some s2.players.length } :=
      List.get?_set_eq_of_lt _ hj0len
    rw [posAt_eq_of_get? _ j _ hg]
  · intro j q hj hq
    have hjne : j0 ≠ j := by
      intro he
      subst he
      rw [hj0] at hj
      cases hj
      exact hq (Option.isNone_iff_eq_none.mp hamem.2)
    have hg : (s2.players.set j0
        { a with finishPosition := some s2.players.length }).get? j = some q := by
      rw [List.get?_set_ne _ _ hjne]
      exact hj
    rw [posAt_eq_of_get? _ j q hg]

theorem hpf_inner_preserves (s1 : GameState) (i fc : Nat) :
    (autoFinishLast (podiumUpdate s1 i fc)).roundLeader = s1.roundLeader ∧
    (autoFinishLast (podiumUpdate s1 i fc)).playersWhoSkipped = s1.playersWhoSkipped ∧
    (autoFinishLast (podiumUpdate s1 i fc)).currentHighestCards = s1.currentHighestCards ∧
    (autoFinishLast (podiumUpdate s1 i fc)).centerCards = s1.centerCards ∧
    (autoFinishLast (podiumUpdate s1 i fc)).currentPlayerIndex = s1.currentPlayerIndex ∧
    (autoFinishLast (podiumUpdate s1 i fc)).currentRound = s1.currentRound ∧
    (autoFinishLast (podiumUpdate s1 i fc)).finishedPlayers = s1.finishedPlayers ∧
    (autoFinishLast (podiumUpdate s1 i fc)).players.length = s1.players.length := by
  have ha := autoFinishLast_preserves (podiumUpdate s1 i fc)
  have hpu := podiumUpdate_preserves s1 i fc
  exact ⟨ha.1.trans hpu.2.2.1, ha.2.1.trans hpu.2.2.2.1, ha.2.2.1.trans hpu.2.2.2.2.1,
    ha.2.2.2.1.trans hpu.2.2.2.2.2.1, ha.2.2.2.2.1.trans hpu.2.2.2.2.2.2.1,
    ha.2.2.2.2.2.1.trans hpu.2.2.2.2.2.2.2, ha.2.2.2.2.2.2.1.trans hpu.2.1,
    ha.2.2.2.2.2.2.2.trans (congrArg List.length hpu.1)⟩

theorem handlePlayerFinished_preserves (s : GameState) (i : Nat) :
    (handlePlayerFinished s i).roundLeader = s.roundLeader ∧
    (handlePlayerFinished s i).playersWhoSkipped = s.playersWhoSkipped ∧
    (handlePlayerFinished s i).currentHighestCards = s.currentHighestCards ∧
    (handlePlayerFinished s i).centerCards = s.centerCards ∧
    (handlePlayerFinished s i).currentPlayerIndex = s.currentPlayerIndex ∧
    (handlePlayerFinished s i).currentRound = s.currentRound ∧
    (handlePlayerFinished s i).players.length = s.players.length := by
  unfold handlePlayerFinished
  rcases hpl : s.players.get? i with _ | p
  · exact ⟨rfl, rfl, rfl, rfl, rfl, rfl, rfl⟩
  · dsimp only
    refine ⟨(hpf_inner_preserves _ i _).1, (hpf_inner_preserves _ i _).2.1,
      (hpf_inner_preserves _ i _).2.2.1, (hpf_inner_preserves _ i _).2.2.2.1,
      (hpf_inner_preserves _ i _).2.2.2.2.1, (hpf_inner_preserves _ i _).2.2.2.2.2.1,
      ((hpf_inner_preserves _ i _).2.2.2.2.2.2.2).trans (by simp)⟩

theorem postPlayState_fields (s : GameState) (i : Nat) (p : Player) (nh pl : List Card) :
    (postPlayState s i p nh pl).roundLeader = some i ∧
    (postPlayState s i p nh pl).playersWhoSkipped = ∅ ∧
    (postPlayState s i p nh pl).currentHighestCards = pl ∧
    (postPlayState s i p nh pl).centerCards = pl ∧
    (postPlayState s i p nh pl).currentRound = s.currentRound ∧
    (postPlayState s i p nh pl).players.length = s.players.length := by
  unfold postPlayState
  by_cases h : nh.isEmpty
  · rw [if_pos h]
    have hpres := handlePlayerFinished_preserves { setHand s i nh with
      currentHighestCards := pl
      currentHighestCard := pl.head?
      centerCards := pl
      lastPlayedCards := pl
      roundLeader := some i
      roundWinner := some p.id
      playersWhoSkipped := ∅
      consecutiveSkips := 0 } i
    refine ⟨hpres.1, hpres.2.1, hpres.2.2.1, hpres.2.2.2.1, ?_, ?_⟩
    · rw [hpres.2.2.2.2.2.1]
      exact setHand_currentRound s i nh
    · rw [hpres.2.2.2.2.2.2]
      exact setHand_players_length s i nh
  · rw [if_neg h]
    exact ⟨rfl, rfl, rfl, rfl, setHand_currentRound s i nh, setHand_players_length s i nh⟩

theorem nextTurn_after_play (t : GameState) (i : Nat) (hL : t.roundLeader = some i)
    (hlen : i < t.players.length) (hsk : t.playersWhoSkipped = ∅) :
    (nextTurn t).roundLeader = some i ∧ (nextTurn t).playersWhoSkipped = ∅ ∧
    ((nextTurn t).currentHighestCards = t.currentHighestCards ∨
     ((nextTurn t).currentHighestCards = [] ∧ (nextTurn t).currentPlayerIndex = i ∧
      (nextTurn t).currentRound = 0)) := by
  have hspec := endRound_spec { t with
    currentPlayerIndex := advanceLoop t.players ((t.currentPlayerIndex + 1) % t.players.length)
      (t.players.length - 1)
    currentRound := t.currentRound + 1 } i hL hlen
  rw [nextTurn_eq]
  split_ifs with hcond
  · exact ⟨hspec.2.2.2.2.1, hspec.2.2.2.1,
      Or.inr ⟨hspec.2.1, hspec.1, hspec.2.2.2.2.2.2⟩⟩
  · exact ⟨hL, hsk, Or.inl rfl⟩

/-! ## Fisher-Yates shuffle lemmas -/

theorem cons_set_perm (x : α) : ∀ (t : List α) (m : Nat) (b : α),
    t.get? m = some b → (b :: t.set m x).Perm (x :: t) := by
  intro t
  induction t with
  | nil => intro m b h; simp at h
  | cons y t' ih =>
    intro m b h
    cases m with
    | zero =>
      have hyb : y = b := by simpa using h
      subst hyb
      show (y :: x :: t').Perm (x :: y :: t')
      exact List.Perm.swap x y t'
    | succ k =>
      have h' : t'.get? k = some b := by simpa using h
      show (b :: y :: t'.set k x).Perm (x :: y :: t')
      have s1 : (b :: y :: t'.set k x).Perm (y :: b :: t'.set k x) := List.Perm.swap y b _
      have s2 : (y :: b :: t'.set k x).Perm (y :: x :: t') := List.Perm.cons y (ih k b h')
      have s3 : (y :: x :: t').Perm (x :: y :: t') := List.Perm.swap x y t'
      exact s1.trans (s2.trans s3)

theorem set_set_perm : ∀ (l : List α) (i j : Nat) (a b : α),
    l.get? i = some a → l.get? j = some b → ((l.set i b).set j a).Perm l := by
  intro l
  induction l with
  | nil => intro i j a b hi _; simp at hi
  | cons x t ih =>
    intro i j a b hi hj
    cases i with
    | zero =>
      have hxa : x = a := by simpa using hi
      cases j with
      | zero =>
        have hxb : x = b := by simpa using hj
        show (a :: t).Perm (x :: t)
        rw [hxa]
      | succ m =>
        have hb : t.get? m = some b := by simpa using hj
        show (b :: t.set m a).Perm (x :: t)
        rw [← hxa]
        exact cons_set_perm x t m b hb
    | succ k =>
      have ha : t.get? k = some a := by simpa using hi
      cases j with
      | zero =>
        have hxb : x = b := by simpa using hj
        show (a :: t.set k b).Perm (x :: t)
        rw [← hxb]
        exact cons_set_perm x t k a ha
      | succ m =>
        have hb : t.get? m = some b := by simpa using hj
        show (x :: (t.set k b).set m a).Perm (x :: t)
        exact List.Perm.cons x (ih k m a b ha hb)

theorem listSwap_perm (l : List α) (i j : Nat) : (listSwap l i j).Perm l := by
  unfold listSwap
  rcases hi : l.get? i with _ | a
  · exact List.Perm.refl l
  · rcases hj : l.get? j with _ | b
    · exact List.Perm.refl l
    · exact set_set_perm l i j a b hi hj

theorem fyAux_perm : ∀ (cs : List Nat) (l : List α) (i : Nat), (fyAux l cs i).Perm l := by
  intro cs
  induction cs with
  | nil => intro l i; exact List.Perm.refl l
  | cons j rest ih =>
    intro l i
    exact (ih (listSwap l i j) (i - 1)).trans (listSwap_perm l i j)

theorem listSwap_get?_ne (l : List α) (i j m : Nat) (hmi : m ≠ i) (hmj : m ≠ j) :
    (listSwap l i j).get? m = l.get? m := by
  unfold listSwap
  rcases hi : l.get? i with _ | a
  · rfl
  · rcases hj : l.get? j with _ | b
    · rfl
    · rw [List.get?_set_ne a _ (Ne.symm hmj), List.get?_set_ne b l (Ne.symm hmi)]

theorem listSwap_get?_at (l : List α) (i j : Nat) (a b : α)
    (hi : l.get? i = some a) (hj : l.get? j = some b) :
    (listSwap l i j).get? i = some b := by
  have hilen : i < l.length := by
    rcases List.get?_eq_some.mp hi with ⟨h, _⟩
    exact h
  unfold listSwap
  rw [hi, hj]
  by_cases hij : j = i
  · subst hij
    rw [List.get?_set_eq_of_lt a (by simpa using hilen)]
    rw [← hi, ← hj]
  · rw [List.get?_set_ne a _ hij, List.get?_set_eq_of_lt b hilen]

theorem fyAux_get?_high : ∀ (i : Nat) (cs : List Nat) (l : List α) (m : Nat),
    validFy i cs → i < m → (fyAux l cs i).get? m = l.get? m := by
  intro i
  induction i with
  | zero =>
    intro cs l m hv _
    rw [show cs = [] from hv]
    rfl
  | succ n ih =>
    intro cs l m hv him
    rcases cs with _ | ⟨j, rest⟩
    · exact False.elim hv
    · obtain ⟨hj, hrest⟩ := hv
      show (fyAux (listSwap l (n + 1) j) rest (n + 1 - 1)).get? m = l.get? m
      rw [show n + 1 - 1 = n from rfl,
        ih rest (listSwap l (n + 1) j) m hrest (by omega)]
      exact listSwap_get?_ne l (n + 1) j m (by omega) (by omega)

theorem fyAux_injOn : ∀ (i : Nat) (l : List α) (cs cs' : List Nat),
    l.Nodup → i < l.length → validFy i cs → validFy i cs' →
    fyAux l cs i = fyAux l cs' i → cs = cs' := by
  intro i
  induction i with
  | zero =>
    intro l cs cs' _ _ hv hv' _
    rw [show cs = [] from hv, show cs' = [] from hv']
  | succ n ih =>
    intro l cs cs' hnd hlen hv hv' heq
    rcases cs with _ | ⟨j, rest⟩
    · exact False.elim hv
    rcases cs' with _ | ⟨j', rest'⟩
    · exact False.elim hv'
    obtain ⟨hj, hrest⟩ := hv
    obtain ⟨hj', hrest'⟩ := hv'
    have hjlen : j < l.length := by omega
    have hjlen2 : j' < l.length := by omega
    obtain ⟨a, ha⟩ := get?_some_of_lt l j hjlen
    obtain ⟨a', ha'⟩ := get?_some_of_lt l j' hjlen2
    obtain ⟨c, hc⟩ := get?_some_of_lt l (n + 1) hlen
    have e1 : (fyAux l (j :: rest) (n + 1)).get? (n + 1) = some a := by
      show (fyAux (listSwap l (n + 1) j) rest (n + 1 - 1)).get? (n + 1) = some a
      rw [show n + 1 - 1 = n from rfl,
        fyAux_get?_high n rest (listSwap l (n + 1) j) (n + 1) hrest (by omega)]
      exact listSwap_get?_at l (n + 1) j c a hc ha
    have e2 : (fyAux l (j' :: rest') (n + 1)).get? (n + 1) = some a' := by
      show (fyAux (listSwap l (n + 1) j') rest' (n + 1 - 1)).get? (n + 1) = some a'
      rw [show n + 1 - 1 = n from rfl,
        fyAux_get?_high n rest' (listSwap l (n + 1) j') (n + 1) hrest' (by omega)]
      exact listSwap_get?_at l (n + 1) j' c a' hc ha'
    have haa : some a = some a' := e1.symm.trans (by rw [heq]; exact e2)
    have hjj' : j = j' := by
      refine List.get?_inj hjlen hnd ?_
      rw [ha, ha']
      exact haa
    subst hjj'
    have heq' : fyAux (listSwap l (n + 1) j) rest n = fyAux (listSwap l (n + 1) j) rest' n := heq
    have hnd2 : (listSwap l (n + 1) j).Nodup := (listSwap_perm l (n + 1) j).symm.nodup hnd
    have hlen2 : n < (listSwap l (n + 1) j).length := by
      rw [(listSwap_perm l (n + 1) j).length_eq]
      omega
    rw [ih (listSwap l (n + 1) j) rest rest' hnd2 hlen2 hrest hrest' heq']

theorem fyAux_surj [DecidableEq α] : ∀ (i : Nat) (l m : List α),
    l.Nodup → i < l.length → l.Perm m → (∀ k, i < k → l.get? k = m.get? k) →
    ∃ cs, validFy i cs ∧ fyAux l cs i = m := by
  intro i
  induction i with
  | zero =>
    intro l m hnd hlen hperm hagree
    refine ⟨[], rfl, ?_⟩
    rcases l with _ | ⟨a, t⟩
    · simp at hlen
    rcases m with _ | ⟨b, t'⟩
    · have := hperm.length_eq
      simp at this
    have htail : t = t' := by
      apply List.ext
      intro n
      have := hagree (n + 1) (by omega)
      simpa using this
    subst htail
    have hab : a = b := by
      by_contra hne
      have hcnt := hperm.count_eq a
      have h1 : (a :: t).count a = t.count a + 1 := by simp [List.count_cons]
      have h2 : (b :: t).count a = t.count a := by simp [List.count_cons, Ne.symm hne]
      rw [h1, h2] at hcnt
      omega
    rw [show fyAux (a :: t) [] 0 = a :: t from rfl, hab]
  | succ n ih =>
    intro l m hnd hlen hperm hagree
    have hmlen : l.length = m.length := hperm.length_eq
    obtain ⟨b, hb⟩ := get?_some_of_lt m (n + 1) (by omega)
    have hbl : b ∈ l := hperm.mem_iff.mpr (List.get?_mem hb)
    obtain ⟨j, hj⟩ := List.get?_of_mem hbl
    have hjlen : j < l.length := by
      rcases List.get?_eq_some.mp hj with ⟨h, _⟩
      exact h
    have hmnd : m.Nodup := hperm.nodup hnd
    have hjle : j ≤ n + 1 := by
      by_contra hgt
      push_neg at hgt
      have hmj : m.get? j = some b := by
        rw [← hagree j (by omega)]
        exact hj
      have : j = n + 1 := by
        refine List.get?_inj (by omega : j < m.length) hmnd ?_
        rw [hmj, hb]
      omega
    obtain ⟨c, hc⟩ := get?_some_of_lt l (n + 1) hlen
    have hl2perm : (listSwap l (n + 1) j).Perm l := listSwap_perm l (n + 1) j
    have hl2nd : (listSwap l (n + 1) j).Nodup := hl2perm.symm.nodup hnd
    have hl2len : (listSwap l (n + 1) j).length = l.length := hl2perm.length_eq
    have hl2m : (listSwap l (n + 1) j).Perm m := hl2perm.trans hperm
    have hagree2 : ∀ k, n < k → (listSwap l (n + 1) j).get? k = m.get? k := by
      intro k hk
      by_cases hk1 : k = n + 1
      · subst hk1
        rw [listSwap_get?_at l (n + 1) j c b hc hj]
        exact hb.symm
      · rw [listSwap_get?_ne l (n + 1) j k (by omega) (by omega)]
        exact hagree k (by omega)
    obtain ⟨rest, hvrest, hfy⟩ := ih (listSwap l (n + 1) j) m hl2nd
      (by rw [hl2len]; omega) hl2m hagree2
    refine ⟨j :: rest, ⟨hjle, hvrest⟩, ?_⟩
    show fyAux (listSwap l (n + 1) j) rest (n + 1 - 1) = m
    rw [show n + 1 - 1 = n from rfl]
    exact hfy

/-! ## Dealing lemmas -/

theorem enumFrom_length : ∀ (l : List α) (k : Nat), (enumFrom k l).length = l.length := by
  intro l
  induction l with
  | nil => intro k; rfl
  | cons a t ih =>
    intro k
    show (enumFrom (k + 1) t).length + 1 = t.length + 1
    rw [ih (k + 1)]

theorem dealCards_hands : ∀ (ps : List Player) (deck : List Card),
    allHands (dealCards ps deck).1 = deck.take (13 * ps.length) := by
  intro ps
  induction ps with
  | nil => intro deck; rfl
  | cons p rest ih =>
    intro deck
    show deck.take 13 ++ allHands (dealCards rest (deck.drop 13)).1 =
      deck.take (13 * (rest.length + 1))
    rw [ih (deck.drop 13), show 13 * (rest.length + 1) = 13 + 13 * rest.length by ring]
    exact (List.take_add deck 13 (13 * rest.length)).symm

theorem dealCards_rest : ∀ (ps : List Player) (deck : List Card),
    (dealCards ps deck).2 = deck.drop (13 * ps.length) := by
  intro ps
  induction ps with
  | nil => intro deck; rfl
  | cons p rest ih =>
    intro deck
    show (dealCards rest (deck.drop 13)).2 = deck.drop (13 * (rest.length + 1))
    rw [ih (deck.drop 13), List.drop_drop,
      show 13 + 13 * rest.length = 13 * (rest.length + 1) by ring]

theorem dealCards_hand_len : ∀ (ps : List Player) (deck : List Card),
    13 * ps.length ≤ deck.length → ∀ q ∈ (dealCards ps deck).1, q.hand.length = 13 := by
  intro ps
  induction ps with
  | nil => intro deck _ q hq; simp [dealCards] at hq
  | cons p rest ih =>
    intro deck hle q hq
    simp only [List.length_cons] at hle
    have hq' : q = { p with hand := deck.take 13 } ∨ q ∈ (dealCards rest (deck.drop 13)).1 := by
      simpa [dealCards] using hq
    rcases hq' with hq' | hq'
    · subst hq'
      show (deck.take 13).length = 13
      rw [List.length_take]
      omega
    · refine ih (deck.drop 13) ?_ q hq'
      rw [List.length_drop]
      omega

theorem c5_core (s : GameState) (i : Nat) (p' : Player)
    (hlen : s.players.length = 4)
    (hilen : i < s.players.length)
    (hact : ((s.players.set i p').filter fun q => q.finishPosition.isNone).length
      = 3 - s.finishedPlayers)
    (hfcold : s.finishedPlayers ≤ 3)
    (hppos : p'.finishPosition = some (s.finishedPlayers + 1)) :
    posAt (autoFinishLast (podiumUpdate
      { s with finishedPlayers := s.finishedPlayers + 1, players := s.players.set i p' }
      i (s.finishedPlayers + 1))) i = some (s.finishedPlayers + 1) ∧
    (autoFinishLast (podiumUpdate
      { s with finishedPlayers := s.finishedPlayers + 1, players := s.players.set i p' }
      i (s.finishedPlayers + 1))).finishedPlayers = s.finishedPlayers + 1 ∧
    (s.finishedPlayers + 1 = 3 →
      (autoFinishLast (podiumUpdate
        { s with finishedPlayers := s.finishedPlayers + 1, players := s.players.set i p' }
        i (s.finishedPlayers + 1))).gamePhase = GamePhase.gameOver ∧
      ∀ j q, s.players.get? j = some q → q.finishPosition = none → j ≠ i →
        posAt (autoFinishLast (podiumUpdate
          { s with finishedPlayers := s.finishedPlayers + 1, players := s.players.set i p' }
          i (s.finishedPlayers + 1))) j = some 4) ∧
    (s.finishedPlayers + 1 < 3 →
      (autoFinishLast (podiumUpdate
        { s with finishedPlayers := s.finishedPlayers + 1, players := s.players.set i p' }
        i (s.finishedPlayers + 1))).gamePhase = s.gamePhase ∧
      ∀ j, j ≠ i → posAt (autoFinishLast (podiumUpdate
        { s with finishedPlayers := s.finishedPlayers + 1, players := s.players.set i p' }
        i (s.finishedPlayers + 1))) j = posAt s j) := by
  set s1 : GameState :=
    { s with finishedPlayers := s.finishedPlayers + 1, players := s.players.set i p' } with hs1
  set u : GameState := podiumUpdate s1 i (s.finishedPlayers + 1) with hu
  have hupl : u.players = s.players.set i p' := by
    rw [hu]
    exact (podiumUpdate_preserves s1 i _).1
  have hufc : u.finishedPlayers = s.finishedPlayers + 1 := by
    rw [hu]
    exact (podiumUpdate_preserves s1 i _).2.1
  have hactu : (u.players.filter fun q => q.finishPosition.isNone).length
      = 3 - s.finishedPlayers := by
    rw [hupl]
    exact hact
  have hgetu : u.players.get? i = some p' := by
    rw [hupl]
    exact List.get?_set_eq_of_lt _ hilen
  have haf_fin : (autoFinishLast u).finishedPlayers = s.finishedPlayers + 1 :=
    ((autoFinishLast_preserves u).2.2.2.2.2.2.1).trans hufc
  refine ⟨?_, haf_fin, ?_, ?_⟩
  · by_cases hge : 2 ≤ (u.players.filter fun q => q.finishPosition.isNone).length
    · rw [autoFinishLast_skip u hge, posAt_eq_of_get? u i p' hgetu, hppos]
    · rcases (by omega : (u.players.filter fun q => q.finishPosition.isNone).length = 0 ∨
        (u.players.filter fun q => q.finishPosition.isNone).length = 1) with h0 | h1
      · rw [autoFinishLast_empty u h0, posAt_eq_of_get? u i p' hgetu, hppos]
      · have hone := autoFinishLast_one u h1
        rw [hone.2.2 i p' hgetu (by rw [hppos]; simp), hppos]
  · intro h3
    have h2 : s.finishedPlayers = 2 := by omega
    have h1 : (u.players.filter fun q => q.finishPosition.isNone).length = 1 := by
      rw [hactu, h2]
    have hone := autoFinishLast_one u h1
    refine ⟨hone.1, ?_⟩
    intro j q hj hq hji
    have hgq : u.players.get? j = some q := by
      rw [hupl, List.get?_set_ne _ _ (fun he => hji he.symm)]
      exact hj
    rw [hone.2.1 j q hgq hq]
    have hul4 : u.players.length = 4 := by
      rw [hupl]
      simp [hlen]
    rw [hul4]
  · intro h4
    have hge : 2 ≤ (u.players.filter fun q => q.finishPosition.isNone).length := by omega
    rw [autoFinishLast_skip u hge]
    constructor
    · rw [hu]
      exact (podiumUpdate_phase s1 i _ (by omega)).trans rfl
    · intro j hji
      refine posAt_congr u s j ?_
      rw [hupl, List.get?_set_ne _ _ (fun he => hji he.symm)]

/-! ## Claim theorems -/

/-- C1: for the current player and a nonempty duplicate-free set of cards of
common value v drawn from the hand of that player, playCards accepts on an empty
table, and on a table holding cards of value R accepts exactly when the set
has the same size as the table and v is strictly greater than R (equal rank,
lower rank and mismatched size are rejected). -/
theorem c1_beat_rule (s : GameState) (p : Player) (cards : List Card) (v : Nat)
    (hp : s.players.get? s.currentPlayerIndex = some p)
    (hne : cards ≠ []) (hnd : cards.Nodup)
    (hhand : ∀ c ∈ cards, c ∈ p.hand)
    (hsame : ∀ c ∈ cards, c.value = v) :
    (s.currentHighestCards = [] →
      (playCards s s.currentPlayerIndex cards).fst = true) ∧
    (∀ t ts, s.currentHighestCards = t :: ts →
      ((playCards s s.currentPlayerIndex cards).fst = true ↔
        (cards.length = (t :: ts).length ∧ t.value < v))) := by
  obtain ⟨c0, rest, rfl⟩ : ∃ c0 rest, cards = c0 :: rest := by
    cases cards with
    | nil => exact absurd rfl hne
    | cons a t => exact ⟨a, t, rfl⟩
  have hv0 : c0.value = v := hsame c0 (List.mem_cons_self c0 rest)
  have hallv : ((c0 :: rest).all fun c => c.value == c0.value) = true := by
    rw [List.all_eq_true]
    intro c hc
    have := hsame c hc
    simp [this, hv0]
  have hanyall : ((c0 :: rest).all fun c =>
      p.hand.any fun x => x.suit == c.suit && x.value == c.value) = true := by
    rw [List.all_eq_true]
    intro c hc
    rw [List.any_eq_true]
    exact ⟨c, hhand c hc, by simp⟩
  have hrem := removeCards_success (c0 :: rest) p.hand [] hnd hhand
  constructor
  · intro hE
    have hcan : canPlayCards s p (c0 :: rest) = true := by
      unfold canPlayCards
      rw [hp, hE]
      simp [hallv]
    rw [playCards_run _ _ _ _ _ _ hp hcan hanyall hrem]
  · intro t ts hT
    by_cases hlen : (c0 :: rest).length = (t :: ts).length
    · by_cases hlt : t.value < c0.value
      · have hcan : canPlayCards s p (c0 :: rest) = true := by
          unfold canPlayCards
          rw [hp, hT]
          simp [hallv, hlen, hlt]
        have hfst : (playCards s s.currentPlayerIndex (c0 :: rest)).fst = true := by
          rw [playCards_run _ _ _ _ _ _ hp hcan hanyall hrem]
        simp [hfst, hlen, hv0 ▸ hlt]
      · have hcan : canPlayCards s p (c0 :: rest) = false := by
          unfold canPlayCards
          rw [hp, hT]
          simp [hallv, hlen, hlt]
        have hfst : (playCards s s.currentPlayerIndex (c0 :: rest)).fst = false := by
          rw [playCards_reject_canPlay _ _ _ _ hp hcan]
        rw [hfst]
        simp only [Bool.false_eq_true, false_iff]
        intro hcontra
        rw [hv0] at hlt
        exact hlt hcontra.2
    · have hcan : canPlayCards s p (c0 :: rest) = false := by
        unfold canPlayCards
        rw [hp, hT]
        simp [hallv, hlen]
        intro h
        exact absurd (by simp [h] : (c0 :: rest).length = (t :: ts).length) hlen
      have hfst : (playCards s s.currentPlayerIndex (c0 :: rest)).fst = false := by
        rw [playCards_reject_canPlay _ _ _ _ hp hcan]
      rw [hfst]
      simp only [Bool.false_eq_true, false_iff]
      intro hcontra
      exact hlen hcontra.1

/-- Witness for C1: in the concrete state exC3 (table holds a single card of
value 7, seat 3 to act) the set consisting of the 9 of spades, drawn from the
hand of seat 3, is accepted, matching the size-and-higher-rank condition. -/
theorem c1_beat_rule_witness :
    (exC3.players.get? exC3.currentPlayerIndex = some (exC3.players.get ⟨3, by decide⟩) ∧
      ([exCard "spades" 9] : List Card) ≠ [] ∧ ([exCard "spades" 9] : List Card).Nodup ∧
      (∀ c ∈ [exCard "spades" 9], c ∈ (exC3.players.get ⟨3, by decide⟩).hand) ∧
      (∀ c ∈ [exCard "spades" 9], c.value = 9)) ∧
    ((playCards exC3 exC3.currentPlayerIndex [exCard "spades" 9]).fst = true ↔
      ([exCard "spades" 9].length = [exCard "diamonds" 7].length ∧ 7 < 9)) :=
  ⟨⟨by decide, by decide, by decide, by decide, by decide⟩,
    (c1_beat_rule exC3 (exC3.players.get ⟨3, by decide⟩) [exCard "spades" 9] 9
      (by decide) (by decide) (by decide) (by decide) (by decide)).2
      (exCard "diamonds" 7) [] rfl⟩

/-- C2: in every state whose round leader is seat L, once the skip being
processed leaves every active seat other than L in the skipped set, skipTurn
closes the round: the resulting state has currentSeat equal to the round
leader, an empty table (currentHighestCards and centerCards) and a cleared
skipped set. -/
theorem c2_round_closure (s : GameState) (L : Nat)
    (hL : s.roundLeader = some L) (hLlen : L < s.players.length)
    (hids : (s.players.map Player.id).Nodup)
    (hall : ∀ k, k < s.players.length → posAt s k = none → k ≠ L →
      k ∈ insert s.currentPlayerIndex s.playersWhoSkipped) :
    (skipTurn s).currentPlayerIndex = L ∧ (skipTurn s).currentHighestCards = [] ∧
    (skipTurn s).centerCards = [] ∧ (skipTurn s).playersWhoSkipped = ∅ := by
  have hmain : skipTurn s = skipResolve (nextTurn { s with
      playersWhoSkipped := insert s.currentPlayerIndex s.playersWhoSkipped }) := rfl
  rw [hmain, nextTurn_eq]
  split_ifs with hcond
  · exact skipResolve_after_endRound _ L hL hLlen
  · exact skipResolve_allskipped _ L hL hLlen hids hall

/-- Witness for C2: the concrete state exC2 (leader seat 0, seats 1 and 2
already skipped, seat 3 skipping) satisfies the hypotheses, and the round
closes onto seat 0 with table and skip set cleared. -/
theorem c2_round_closure_witness :
    (exC2.roundLeader = some 0 ∧ 0 < exC2.players.length ∧
      (exC2.players.map Player.id).Nodup ∧
      (∀ k, k < exC2.players.length → posAt exC2 k = none → k ≠ 0 →
        k ∈ insert exC2.currentPlayerIndex exC2.playersWhoSkipped)) ∧
    ((skipTurn exC2).currentPlayerIndex = 0 ∧ (skipTurn exC2).currentHighestCards = [] ∧
      (skipTurn exC2).centerCards = [] ∧ (skipTurn exC2).playersWhoSkipped = ∅) :=
  ⟨⟨rfl, by decide, by decide, by decide⟩,
    c2_round_closure exC2 0 rfl (by decide) (by decide) (by decide)⟩

/-- C7: with distinct player ids and in-range seats, a playCards or skipTurn
request on behalf of any seat other than the current one is rejected and
produces no state change. -/
theorem c7_turn_legality (s : GameState) (seat : Nat) (cards : List Card)
    (hseat : seat < s.players.length)
    (hcur : s.currentPlayerIndex < s.players.length)
    (hids : (s.players.map Player.id).Nodup)
    (hne : seat ≠ s.currentPlayerIndex) :
    playCards s seat cards = (false, s) ∧ skipTurnRequest s seat = s := by
  obtain ⟨q, hq⟩ := get?_some_of_lt s.players seat hseat
  obtain ⟨cp, hcp⟩ := get?_some_of_lt s.players s.currentPlayerIndex hcur
  have hid : cp.id ≠ q.id :=
    map_nodup_ne Player.id s.players s.currentPlayerIndex seat cp q hids hcp hq
      (fun h => hne h.symm)
  have hbne : (cp.id != q.id) = true := by simpa using hid
  have hcan : canPlayCards s q cards = false := by
    unfold canPlayCards
    rw [hcp]
    dsimp only
    rw [hbne]
    simp
  refine ⟨playCards_reject_canPlay s seat q cards hq hcan, ?_⟩
  unfold skipTurnRequest
  rw [if_neg hne]

/-- Witness for C7: in exBase (current seat 0) a play and a skip request by
seat 1 are both rejected and leave the state unchanged. -/
theorem c7_turn_legality_witness :
    (1 < exBase.players.length ∧ exBase.currentPlayerIndex < exBase.players.length ∧
      (exBase.players.map Player.id).Nodup ∧ 1 ≠ exBase.currentPlayerIndex) ∧
    (playCards exBase 1 [exCard "hearts" 7] = (false, exBase) ∧
      skipTurnRequest exBase 1 = exBase) :=
  ⟨⟨by decide, by decide, by decide, by decide⟩,
    c7_turn_legality exBase 1 [exCard "hearts" 7] (by decide) (by decide)
      (by decide) (by decide)⟩

theorem playCards_reject_cases (s : GameState) (i : Nat) (cards : List Card)
    (h : (playCards s i cards).fst = false) :
    (playCards s i cards).snd = s ∨
    (∃ p, s.players.get? i = some p ∧ (removeCards p.hand cards []).1 = false ∧
      (playCards s i cards).snd = setHand s i (removeCards p.hand cards []).2.1) := by
  rcases hpl : s.players.get? i with _ | player
  · left
    unfold playCards
    rw [hpl]
  · rcases hcan : canPlayCards s player cards with _ | _
    · left
      rw [playCards_reject_canPlay s i player cards hpl hcan]
    · rcases hall : (cards.all fun c =>
          player.hand.any fun x => x.suit == c.suit && x.value == c.value) with _ | _
      · left
        unfold playCards
        rw [hpl]
        dsimp only
        rw [hcan, hall]
        simp
      · rcases hrm : removeCards player.hand cards [] with ⟨fst, nh, pl⟩
        cases fst with
        | false =>
          right
          refine ⟨player, rfl, by rw [hrm], ?_⟩
          unfold playCards
          rw [hpl]
          dsimp only
          rw [hcan, hall, hrm]
          simp
        | true =>
          exfalso
          rw [playCards_run s i player cards nh pl hpl hcan hall hrm] at h
          simp at h

/-- C4 counterexample: in exBase, seat 0 requests the duplicated card list
holding the 3 of hearts twice; the request is rejected (playCards returns
false) yet the state is not identical to the original, refuting the claim
that every rejection leaves the state unchanged in every field: the rollback
pushed the removed card to the end of the hand, changing the hand order. -/
theorem c4_counterexample :
    (playCards exBase 0 [exCard "hearts" 3, exCard "hearts" 3]).fst = false ∧
    (playCards exBase 0 [exCard "hearts" 3, exCard "hearts" 3]).snd ≠ exBase ∧
    ((playCards exBase 0 [exCard "hearts" 3, exCard "hearts" 3]).snd.players.get? 0).map
        Player.hand =
      some [exCard "spades" 5, exCard "hearts" 3] := by
  exact ⟨by decide, by decide, by decide⟩

/-- C4 (amended): every rejected playCards call leaves all non-player state
fields unchanged and every player other than the acting seat unchanged; the
acting player keeps id, name, index, winner flag and finish position, and
keeps the same multiset of hand cards, but the duplicate-entry rollback path
may reorder that hand (it cannot change anything else).  A skip request from
a seat other than the current one leaves the state exactly unchanged. -/
theorem c4_amended (s : GameState) (i : Nat) (cards : List Card) (seat : Nat)
    (hrej : (playCards s i cards).fst = false)
    (hseat : seat ≠ s.currentPlayerIndex) :
    ((playCards s i cards).snd.deck = s.deck ∧
     (playCards s i cards).snd.currentPlayerIndex = s.currentPlayerIndex ∧
     (playCards s i cards).snd.currentRound = s.currentRound ∧
     (playCards s i cards).snd.centerCards = s.centerCards ∧
     (playCards s i cards).snd.lastPlayedCards = s.lastPlayedCards ∧
     (playCards s i cards).snd.currentHighestCard = s.currentHighestCard ∧
     (playCards s i cards).snd.currentHighestCards = s.currentHighestCards ∧
     (playCards s i cards).snd.roundWinner = s.roundWinner ∧
     (playCards s i cards).snd.roundLeader = s.roundLeader ∧
     (playCards s i cards).snd.playersWhoSkipped = s.playersWhoSkipped ∧
     (playCards s i cards).snd.consecutiveSkips = s.consecutiveSkips ∧
     (playCards s i cards).snd.finishedPlayers = s.finishedPlayers ∧
     (playCards s i cards).snd.gamePhase = s.gamePhase ∧
     (playCards s i cards).snd.gameWinner = s.gameWinner ∧
     (playCards s i cards).snd.gameSecond = s.gameSecond ∧
     (playCards s i cards).snd.gameThird = s.gameThird ∧
     (playCards s i cards).snd.gameLoser = s.gameLoser) ∧
    ((playCards s i cards).snd.players.length = s.players.length ∧
     (∀ j, j ≠ i → (playCards s i cards).snd.players.get? j = s.players.get? j) ∧
     (∀ p p', s.players.get? i = some p →
       (playCards s i cards).snd.players.get? i = some p' →
       p'.id = p.id ∧ p'.name = p.name ∧ p'.index = p.index ∧
       p'.isWinner = p.isWinner ∧ p'.finishPosition = p.finishPosition ∧
       p'.hand.Perm p.hand)) ∧
    skipTurnRequest s seat = s := by
  have hskip : skipTurnRequest s seat = s := by
    unfold skipTurnRequest
    rw [if_neg hseat]
  rcases playCards_reject_cases s i cards hrej with hcase | ⟨p, hp, hfail, hcase⟩
  · rw [hcase]
    refine ⟨⟨rfl, rfl, rfl, rfl, rfl, rfl, rfl, rfl, rfl, rfl, rfl, rfl, rfl, rfl,
      rfl, rfl, rfl⟩, ⟨rfl, fun j _ => rfl, ?_⟩, hskip⟩
    intro q q' hq hq'
    rw [hq] at hq'
    cases hq'
    exact ⟨rfl, rfl, rfl, rfl, rfl, List.Perm.refl _⟩
  · rw [hcase]
    have hperm : ((removeCards p.hand cards []).2.1).Perm p.hand := by
      have := removeCards_failure_perm cards p.hand [] hfail
      simpa using this
    have hset : setHand s i (removeCards p.hand cards []).2.1 =
        { s with
          players := s.players.set i { p with hand := (removeCards p.hand cards []).2.1 } } := by
      unfold setHand
      rw [hp]
    rw [hset]
    have hilen : i < s.players.length := by
      rcases List.get?_eq_some.mp hp with ⟨hl, _⟩
      exact hl
    refine ⟨⟨rfl, rfl, rfl, rfl, rfl, rfl, rfl, rfl, rfl, rfl, rfl, rfl, rfl, rfl,
      rfl, rfl, rfl⟩, ⟨by simp, fun j hj => List.get?_set_ne _ _ (fun h => hj h.symm), ?_⟩,
      hskip⟩
    intro q q' hq hq'
    have hqp : q = p := by
      rw [hp] at hq
      cases hq
      rfl
    subst hqp
    have : (s.players.set i { q with hand := (removeCards q.hand cards []).2.1 }).get? i =
        some { q with hand := (removeCards q.hand cards []).2.1 } :=
      List.get?_set_eq_of_lt _ hilen
    rw [this] at hq'
    cases hq'
    exact ⟨rfl, rfl, rfl, rfl, rfl, hperm⟩

/-- C3 counterexample: in exC3 (three plays already made this round, so
currentRound = 3), the accepted fourth play by seat 3 does not leave the
played cards on the table: nextTurn reaches the active-player count and calls
endRound, which clears currentHighestCards — refuting the claim that after
every accepted play tableCards equals exactly the played cards (the acting
player does not even finish, so the finishing-player exception is not in
play). -/
theorem c3_counterexample :
    (playCards exC3 3 [exCard "spades" 9]).fst = true ∧
    (playCards exC3 3 [exCard "spades" 9]).snd.currentHighestCards = [] ∧
    (playCards exC3 3 [exCard "spades" 9]).snd.currentHighestCards ≠ [exCard "spades" 9] ∧
    ((playCards exC3 3 [exCard "spades" 9]).snd.players.get? 3).map Player.finishPosition =
      some none :=
  ⟨by decide, by decide, by decide, by decide⟩

/-- C3 (amended): after every accepted playCards call the post-state has
roundLeader equal to the acting seat and an empty skipped set, and
tableCards (currentHighestCards) equals exactly the played cards unless the
play made currentRound reach the active-player count, in which case nextTurn
calls endRound and the post-state instead has a cleared table, currentRound 0
and the turn handed back to the acting seat. -/
theorem c3_amended (s : GameState) (i : Nat) (p : Player) (cards : List Card)
    (hp : s.players.get? i = some p)
    (hcan : canPlayCards s p cards = true)
    (hnd : cards.Nodup) (hhand : ∀ c ∈ cards, c ∈ p.hand) :
    (playCards s i cards).fst = true ∧
    (playCards s i cards).snd.roundLeader = some i ∧
    (playCards s i cards).snd.playersWhoSkipped = ∅ ∧
    ((playCards s i cards).snd.currentHighestCards = cards ∨
     ((playCards s i cards).snd.currentHighestCards = [] ∧
      (playCards s i cards).snd.currentPlayerIndex = i ∧
      (playCards s i cards).snd.currentRound = 0)) := by
  have hany : (cards.all fun c =>
      p.hand.any fun x => x.suit == c.suit && x.value == c.value) = true := by
    rw [List.all_eq_true]
    intro c hc
    rw [List.any_eq_true]
    exact ⟨c, hhand c hc, by simp⟩
  have hrem : removeCards p.hand cards [] =
      (true, cards.foldl (fun h c => h.erase c) p.hand, cards) := by
    simpa using removeCards_success cards p.hand [] hnd hhand
  rw [playCards_run s i p cards _ _ hp hcan hany hrem]
  have hf := postPlayState_fields s i p (cards.foldl (fun h c => h.erase c) p.hand) cards
  have hilen : i < s.players.length := by
    rcases List.get?_eq_some.mp hp with ⟨hl, _⟩
    exact hl
  have htlen : i <
      (postPlayState s i p (cards.foldl (fun h c => h.erase c) p.hand) cards).players.length := by
    rw [hf.2.2.2.2.2]
    exact hilen
  have hnt := nextTurn_after_play
    (postPlayState s i p (cards.foldl (fun h c => h.erase c) p.hand) cards) i hf.1 htlen hf.2.1
  refine ⟨rfl, hnt.1, hnt.2.1, ?_⟩
  rcases hnt.2.2 with h | h
  · exact Or.inl (by rw [h, hf.2.2.1])
  · exact Or.inr h

/-- Witness for C3 (amended): seat 0 opens a round in exBase with the 3 of
hearts; the play is accepted, seat 0 leads, the skip set is empty and the
table holds exactly the played card (or was cleared by round completion). -/
theorem c3_amended_witness :
    (exBase.players.get? 0 = some (exBase.players.get ⟨0, by decide⟩) ∧
      canPlayCards exBase (exBase.players.get ⟨0, by decide⟩) [exCard "hearts" 3] = true ∧
      ([exCard "hearts" 3] : List Card).Nodup ∧
      (∀ c ∈ [exCard "hearts" 3], c ∈ (exBase.players.get ⟨0, by decide⟩).hand)) ∧
    ((playCards exBase 0 [exCard "hearts" 3]).fst = true ∧
     (playCards exBase 0 [exCard "hearts" 3]).snd.roundLeader = some 0 ∧
     (playCards exBase 0 [exCard "hearts" 3]).snd.playersWhoSkipped = ∅ ∧
     ((playCards exBase 0 [exCard "hearts" 3]).snd.currentHighestCards = [exCard "hearts" 3] ∨
      ((playCards exBase 0 [exCard "hearts" 3]).snd.currentHighestCards = [] ∧
       (playCards exBase 0 [exCard "hearts" 3]).snd.currentPlayerIndex = 0 ∧
       (playCards exBase 0 [exCard "hearts" 3]).snd.currentRound = 0))) :=
  ⟨⟨by decide, by decide, by decide, by decide⟩,
    c3_amended exBase 0 (exBase.players.get ⟨0, by decide⟩) [exCard "hearts" 3]
      (by decide) (by decide) (by decide) (by decide)⟩

/-- C6 counterexample: in exC6 seat 0 plays its last card and finishes in
position 1 while three players are still active, yet the post-state keeps
tableCards equal to the played card and roundLeader equal to seat 0 — the
server engine does not clear the table for a finishing player, refuting the
claim. -/
theorem c6_counterexample :
    (playCards exC6 0 [exCard "hearts" 3]).fst = true ∧
    exC6.finishedPlayers = 0 ∧
    ((playCards exC6 0 [exCard "hearts" 3]).snd.players.get? 0).map Player.finishPosition =
      some (some 1) ∧
    (playCards exC6 0 [exCard "hearts" 3]).snd.currentHighestCards = [exCard "hearts" 3] ∧
    (playCards exC6 0 [exCard "hearts" 3]).snd.roundLeader = some 0 :=
  ⟨by decide, by decide, by decide, by decide, by decide⟩

/-- C6 (amended): when an accepted play consumes the whole hand of the acting
player and the play does not trigger the currentRound-based round completion,
the post-state keeps tableCards equal to the played cards and roundLeader
equal to the acting seat: the server engine never clears the table or resets
the leader for a finishing player (only the client-side duplicate engine
does). -/
theorem c6_amended (s : GameState) (i : Nat) (p : Player) (cards : List Card)
    (hp : s.players.get? i = some p)
    (hcan : canPlayCards s p cards = true)
    (hnd : cards.Nodup) (hperm : p.hand.Perm cards)
    (hnoauto : s.currentRound + 1 <
      ((postPlayState s i p [] cards).players.filter fun q => q.finishPosition.isNone).length) :
    (playCards s i cards).fst = true ∧
    (playCards s i cards).snd.roundLeader = some i ∧
    (playCards s i cards).snd.currentHighestCards = cards := by
  have hhand : ∀ c ∈ cards, c ∈ p.hand := fun c hc => hperm.mem_iff.mpr hc
  have hany : (cards.all fun c =>
      p.hand.any fun x => x.suit == c.suit && x.value == c.value) = true := by
    rw [List.all_eq_true]
    intro c hc
    rw [List.any_eq_true]
    exact ⟨c, hhand c hc, by simp⟩
  have hnil : cards.foldl (fun h c => h.erase c) p.hand = [] :=
    eraseAll_of_perm cards p.hand hperm
  have hrem : removeCards p.hand cards [] = (true, [], cards) := by
    have := removeCards_success cards p.hand [] hnd hhand
    rw [hnil] at this
    simpa using this
  rw [playCards_run s i p cards [] cards hp hcan hany hrem]
  have hf := postPlayState_fields s i p [] cards
  have hcond : ¬ (((postPlayState s i p [] cards).players.filter fun q =>
      q.finishPosition.isNone).length ≤ (postPlayState s i p [] cards).currentRound + 1) := by
    rw [hf.2.2.2.2.1]
    omega
  rw [nextTurn_eq, if_neg hcond]
  exact ⟨rfl, hf.1, hf.2.2.1⟩

/-- Witness for C6 (amended): seat 0 in exC6 plays its entire one-card hand;
the play is accepted and the post-state keeps the played card on the table
with seat 0 as leader. -/
theorem c6_amended_witness :
    (exC6.players.get? 0 = some (exC6.players.get ⟨0, by decide⟩) ∧
      canPlayCards exC6 (exC6.players.get ⟨0, by decide⟩) [exCard "hearts" 3] = true ∧
      ([exCard "hearts" 3] : List Card).Nodup ∧
      (exC6.players.get ⟨0, by decide⟩).hand.Perm [exCard "hearts" 3] ∧
      exC6.currentRound + 1 <
        ((postPlayState exC6 0 (exC6.players.get ⟨0, by decide⟩) []
          [exCard "hearts" 3]).players.filter fun q => q.finishPosition.isNone).length) ∧
    ((playCards exC6 0 [exCard "hearts" 3]).fst = true ∧
     (playCards exC6 0 [exCard "hearts" 3]).snd.roundLeader = some 0 ∧
     (playCards exC6 0 [exCard "hearts" 3]).snd.currentHighestCards = [exCard "hearts" 3]) :=
  ⟨⟨by decide, by decide, by decide, by decide, by decide⟩,
    c6_amended exC6 0 (exC6.players.get ⟨0, by decide⟩) [exCard "hearts" 3]
      (by decide) (by decide) (by decide) (by decide) (by decide)⟩

/-- C5: in a 4-player match whose finishedPlayers counter agrees with the
number of finished seats, the player whose hand empties receives finish
position finishedPlayers + 1 (so positions are assigned in strictly
increasing order of the moments hands become empty); when the third player
finishes, the sole remaining active seat is auto-assigned position 4 without
playing and the phase becomes gameOver; with fewer than three finishers the
other seats and the phase are untouched. -/
theorem c5_finish_order (s : GameState) (i : Nat) (p : Player)
    (hlen : s.players.length = 4)
    (hcount : (s.players.filter fun q => q.finishPosition.isNone).length
      + s.finishedPlayers = 4)
    (hi : s.players.get? i = some p) (hp : p.finishPosition = none) :
    posAt (handlePlayerFinished s i) i = some (s.finishedPlayers + 1) ∧
    (handlePlayerFinished s i).finishedPlayers = s.finishedPlayers + 1 ∧
    (s.finishedPlayers + 1 = 3 →
      (handlePlayerFinished s i).gamePhase = GamePhase.gameOver ∧
      ∀ j q, s.players.get? j = some q → q.finishPosition = none → j ≠ i →
        posAt (handlePlayerFinished s i) j = some 4) ∧
    (s.finishedPlayers + 1 < 3 →
      (handlePlayerFinished s i).gamePhase = s.gamePhase ∧
      ∀ j, j ≠ i → posAt (handlePlayerFinished s i) j = posAt s j) := by
  have hilen : i < s.players.length := by
    rcases List.get?_eq_some.mp hi with ⟨h, _⟩
    exact h
  have hpfil : p ∈ s.players.filter (fun q => q.finishPosition.isNone) :=
    List.mem_filter.mpr ⟨List.get?_mem hi, by simp [hp]⟩
  have hfpos : 0 < (s.players.filter fun q => q.finishPosition.isNone).length :=
    List.length_pos.mpr (List.ne_nil_of_mem hpfil)
  have hfcold : s.finishedPlayers ≤ 3 := by omega
  set p' : Player := (if s.finishedPlayers + 1 = 1 then
      { p with finishPosition := some (s.finishedPlayers + 1), isWinner := true }
      else { p with finishPosition := some (s.finishedPlayers + 1) }) with hpdef
  have hppos : p'.finishPosition = some (s.finishedPlayers + 1) := by
    rw [hpdef]
    split_ifs <;> rfl
  have hpact : p'.finishPosition.isNone = false := by
    rw [hppos]
    rfl
  have hsetcount := filter_set_count (fun q => q.finishPosition.isNone) s.players i p p' hi
  simp only [hp, Option.isNone_none, if_true, hpact, Bool.false_eq_true, if_false] at hsetcount
  have hact : ((s.players.set i p').filter
      fun q => q.finishPosition.isNone).length = 3 - s.finishedPlayers := by
    omega
  unfold handlePlayerFinished
  rw [hi]
  dsimp only
  exact c5_core s i p' hlen hilen hact hfcold hppos

/-- Witness for C5: in exC5 (seats 0 and 1 finished, finishedPlayers = 2)
seat 2 finishes third; it receives position 3, the counter reaches 3, and the
game ends. -/
theorem c5_finish_order_witness :
    (exC5.players.length = 4 ∧
      (exC5.players.filter fun q => q.finishPosition.isNone).length
        + exC5.finishedPlayers = 4 ∧
      exC5.players.get? 2 = some (exC5.players.get ⟨2, by decide⟩) ∧
      (exC5.players.get ⟨2, by decide⟩).finishPosition = none) ∧
    (posAt (handlePlayerFinished exC5 2) 2 = some 3 ∧
      (handlePlayerFinished exC5 2).finishedPlayers = 3 ∧
      (handlePlayerFinished exC5 2).gamePhase = GamePhase.gameOver) :=
  ⟨⟨by decide, by decide, by decide, by decide⟩,
    ⟨(c5_finish_order exC5 2 (exC5.players.get ⟨2, by decide⟩) (by decide) (by decide)
        (by decide) (by decide)).1,
      (c5_finish_order exC5 2 (exC5.players.get ⟨2, by decide⟩) (by decide) (by decide)
        (by decide) (by decide)).2.1,
      ((c5_finish_order exC5 2 (exC5.players.get ⟨2, by decide⟩) (by decide) (by decide)
        (by decide) (by decide)).2.2.1 (by decide)).1⟩⟩

/-- C8: for every new 4-player match (any shuffle draws, any starting seat),
after dealing each player holds exactly 13 cards, the concatenation of the
four hands is a permutation of the standard 52-card deck (one card per
suit-value pair) with no duplicates, and the deck is empty. -/
theorem c8_deck_integrity (ps : List (Nat × String)) (cs : List Nat) (start : Nat)
    (h4 : ps.length = 4) :
    (∀ p ∈ (newGame ps cs start).players, p.hand.length = 13) ∧
    (allHands (newGame ps cs start).players).Perm createDeckUnshuffled ∧
    (allHands (newGame ps cs start).players).Nodup ∧
    (newGame ps cs start).deck = [] := by
  have hdnd : createDeckUnshuffled.Nodup := by decide
  have hperm : (createDeck cs).Perm createDeckUnshuffled :=
    fyAux_perm cs createDeckUnshuffled (createDeckUnshuffled.length - 1)
  have hlen52 : (createDeck cs).length = 52 := by
    rw [hperm.length_eq]
    rfl
  set ps0 : List Player := (enumFrom 0 ps).map (fun pr =>
    ({ id := pr.2.1, name := pr.2.2, index := pr.1, hand := [],
       isWinner := false, finishPosition := none } : Player)) with hps0
  have hpl0len : ps0.length = 4 := by
    rw [hps0, List.length_map, enumFrom_length, h4]
  have hplayers : (newGame ps cs start).players = (dealCards ps0 (createDeck cs)).1 := rfl
  have hdeck : (newGame ps cs start).deck = (dealCards ps0 (createDeck cs)).2 := rfl
  have hAll : allHands (newGame ps cs start).players = createDeck cs := by
    rw [hplayers, dealCards_hands, hpl0len, show (13 * 4) = 52 from rfl, ← hlen52]
    exact List.take_length _
  refine ⟨?_, ?_, ?_, ?_⟩
  · intro q hq
    rw [hplayers] at hq
    exact dealCards_hand_len ps0 (createDeck cs) (by rw [hpl0len, hlen52]) q hq
  · rw [hAll]
    exact hperm
  · rw [hAll]
    exact hperm.symm.nodup hdnd
  · rw [hdeck, dealCards_rest, hpl0len, show (13 * 4) = 52 from rfl]
    exact List.drop_eq_nil_of_le (by rw [hlen52])

/-- Witness for C8: a concrete match with four named players, the identity
draw list and starting seat 0 satisfies the deal-integrity conclusions. -/
theorem c8_deck_integrity_witness :
    ([(0, "a"), (1, "b"), (2, "c"), (3, "d")] : List (Nat × String)).length = 4 ∧
    ((∀ p ∈ (newGame [(0, "a"), (1, "b"), (2, "c"), (3, "d")] [] 0).players,
        p.hand.length = 13) ∧
      (allHands (newGame [(0, "a"), (1, "b"), (2, "c"), (3, "d")] [] 0).players).Perm
        createDeckUnshuffled ∧
      (allHands (newGame [(0, "a"), (1, "b"), (2, "c"), (3, "d")] [] 0).players).Nodup ∧
      (newGame [(0, "a"), (1, "b"), (2, "c"), (3, "d")] [] 0).deck = []) :=
  ⟨rfl, c8_deck_integrity [(0, "a"), (1, "b"), (2, "c"), (3, "d")] [] 0 rfl⟩

/-- C10: the shuffle is a correct Fisher-Yates, not the biased repeated-swap
of the legacy client: over the valid draw lists (one draw j with j ≤ i for
each loop index i from 51 down to 1, exactly what Math.floor(random * (i+1))
produces) the map cs to shuffle(deck, cs) is a bijection onto the set of all
orderings of the 52-card deck, so independent uniform draws make every one of
the 52 factorial orderings equally likely. -/
theorem c10_shuffle_uniform :
    Set.BijOn (fun cs => shuffle createDeckUnshuffled cs)
      { cs | validFy (createDeckUnshuffled.length - 1) cs }
      { d | createDeckUnshuffled.Perm d } := by
  have hnd : createDeckUnshuffled.Nodup := by decide
  have hlen52u : createDeckUnshuffled.length = 52 := rfl
  have hlt : createDeckUnshuffled.length - 1 < createDeckUnshuffled.length := by
    rw [hlen52u]
    omega
  refine ⟨?_, ?_, ?_⟩
  · intro cs _
    exact (fyAux_perm cs createDeckUnshuffled (createDeckUnshuffled.length - 1)).symm
  · intro cs1 h1 cs2 h2 heq
    exact fyAux_injOn (createDeckUnshuffled.length - 1) createDeckUnshuffled cs1 cs2
      hnd hlt h1 h2 heq
  · intro m hm
    have hagree : ∀ k, createDeckUnshuffled.length - 1 < k →
        createDeckUnshuffled.get? k = m.get? k := by
      intro k hk
      have h1 : createDeckUnshuffled.get? k = none := by
        rw [List.get?_eq_none]
        omega
      have h2 : m.get? k = none := by
        rw [List.get?_eq_none, ← hm.length_eq]
        omega
      rw [h1, h2]
    obtain ⟨cs, hv, hfy⟩ := fyAux_surj (createDeckUnshuffled.length - 1)
      createDeckUnshuffled m hnd hlt hm hagree
    exact ⟨cs, hv, hfy⟩

/-- C9: evaluating the engine at the reachable state exC9 — seat 0 finished
first while leading the round, seats 1 and 2 skipped, seat 3 skips — shows
endRound handing the turn to the finished round leader: afterwards
currentSeat is 0, seat 0 has finishPosition 1, and three players still hold
cards while the game is not over, contradicting the invariant that
currentSeat references an unfinished player mid-game. -/
theorem c9_endround_finished_leader :
    (skipTurn exC9).currentPlayerIndex = 0 ∧
    ((skipTurn exC9).players.get? 0).map Player.finishPosition = some (some 1) ∧
    ((skipTurn exC9).players.filter fun p => !(p.hand.isEmpty)).length = 3 ∧
    (skipTurn exC9).gamePhase = GamePhase.playing :=
  ⟨by decide, by decide, by decide, by decide⟩

/-- Witness for C4 (amended): in exBase the duplicated-card request by seat 0
is rejected and a skip request by seat 1 is dropped; the amended conclusions
hold at this input. -/
theorem c4_amended_witness :
    ((playCards exBase 0 [exCard "hearts" 3, exCard "hearts" 3]).fst = false ∧
      (1 : Nat) ≠ exBase.currentPlayerIndex) ∧
    ((playCards exBase 0 [exCard "hearts" 3, exCard "hearts" 3]).snd.playersWhoSkipped =
        exBase.playersWhoSkipped ∧
      skipTurnRequest exBase 1 = exBase) :=
  ⟨⟨by decide, by decide⟩,
    ⟨((c4_amended exBase 0 [exCard "hearts" 3, exCard "hearts" 3] 1 (by decide)
        (by decide)).1.2.2.2.2.2.2.2.2.2.1),
      (c4_amended exBase 0 [exCard "hearts" 3, exCard "hearts" 3] 1 (by decide)
        (by decide)).2.2⟩⟩

end Presidente
